import Mathlib

/-!
Verification of the StakeVault escrow engine (Solidity contract in the
repository, `contract StakeVault`).  The contract is shallowly embedded as a
pure state machine:

* `Challenge` mirrors the storage struct (the `mapping(uint256 => bool)
  dayUnlocked` becomes a `Nat → Bool` function with default `false`);
* `VaultState` mirrors the contract storage (`verifier`, `owner`,
  `nextChallengeId`, the `challenges` mapping) together with the externally
  observable effects: the emitted event log and the ERC20 transfers the vault
  performed (`inXfers` for `transferFrom` pulls, `outXfers` for `transfer`
  payouts);
* each external function becomes a Lean function returning
  `Except Err VaultState`; a `require` failure is an `Except.error`, and EVM
  revert semantics mean an erroring call leaves the state untouched
  (`execTx` keeps the pre-state on error);
* the outcome of an external ERC20 call is an oracle boolean argument
  (`pullOk` / `xferOk`): when the oracle says `false` the corresponding
  `require(...transfer...)` fails and the transaction reverts.

Addresses are modelled as `Nat` with `0` as the zero address, amounts and
timestamps as `Nat` (uint256 arithmetic in the contract cannot wrap on the
reachable values involved: Solidity 0.8 checked arithmetic reverts instead of
wrapping, and all quantities handled stay bounded by the deposited principal).
`1 days` is 86400 seconds.
-/

/-- Error outcomes of the contract, one constructor per `require` string. -/
inductive Err where
  /-- require string NOT_OWNER (the `onlyOwner` modifier). -/
  | notOwner
  /-- require string NOT_VERIFIER (the `onlyVerifier` modifier). -/
  | notVerifier
  /-- require string BENEFICIARY_ZERO. -/
  | beneficiaryZero
  /-- require string AMOUNT_ZERO. -/
  | amountZero
  /-- require string DURATION_ZERO. -/
  | durationZero
  /-- require string START_PAST. -/
  | startPast
  /-- require string TRANSFER_FROM_FAIL. -/
  | transferFromFail
  /-- require string FINALIZED. -/
  | alreadyFinalized
  /-- require string NOT_FOUND. -/
  | notFound
  /-- require string BAD_DAY. -/
  | badDay
  /-- require string ALREADY_UNLOCKED. -/
  | alreadyUnlocked
  /-- require string DAY_NOT_STARTED. -/
  | dayNotStarted
  /-- require string NOT_USER. -/
  | notUser
  /-- require string NOTHING_TO_CLAIM. -/
  | nothingToClaim
  /-- require string TRANSFER_FAIL. -/
  | transferFail
  /-- require string NOT_ENDED. -/
  | notEnded
  /-- require string BENEFICIARY_XFER_FAIL. -/
  | beneficiaryXferFail
deriving DecidableEq, Repr

/-- Events emitted by the contract. -/
inductive Event where
  | challengeCreated (challengeId owner beneficiary amount startTime durationDays : Nat)
  | dayAttested (challengeId dayIndex amountUnlocked : Nat)
  | claimed (challengeId owner amount : Nat)
  | finalized (challengeId penaltyToBeneficiary : Nat)
deriving DecidableEq, Repr

/-- The `Challenge` storage struct. -/
structure Challenge where
  user : Nat
  beneficiary : Nat
  principal : Nat
  released : Nat
  penalized : Nat
  startTime : Nat
  durationDays : Nat
  dailySlice : Nat
  finalized : Bool
  dayUnlocked : Nat → Bool

/-- Default value of a `Challenge` mapping slot (all fields zero). -/
def emptyChallenge : Challenge :=
  { user := 0, beneficiary := 0, principal := 0, released := 0, penalized := 0,
    startTime := 0, durationDays := 0, dailySlice := 0, finalized := false,
    dayUnlocked := fun _ => false }

/-- Contract storage plus the externally observable effect history. -/
structure VaultState where
  verifier : Nat
  owner : Nat
  nextChallengeId : Nat
  challenges : Nat → Challenge
  /-- Emitted event log (append-only). -/
  log : List Event
  /-- Successful `IERC20.transfer` calls made by the vault: (recipient, amount). -/
  outXfers : List (Nat × Nat)
  /-- Successful `IERC20.transferFrom` pulls into the vault: (payer, amount). -/
  inXfers : List (Nat × Nat)

/-- State immediately after the constructor ran with `initialVerifier` and
deployer `deployer` (the USDC token address plays no further role here). -/
def initState (deployer initialVerifier : Nat) : VaultState :=
  { verifier := initialVerifier, owner := deployer, nextChallengeId := 0,
    challenges := fun _ => emptyChallenge, log := [], outXfers := [], inXfers := [] }

/-- Write one slot of the `challenges` mapping. -/
def setChallenge (s : VaultState) (id : Nat) (c : Challenge) : VaultState :=
  { s with challenges := fun j => if j = id then c else s.challenges j }

/-- Contribution of a single event to the lifetime amount claimed by the owner
of challenge `id` (ghost accounting used by the conservation statement). -/
def eventClaim (id : Nat) : Event → Nat
  | .claimed i _ a => if i = id then a else 0
  | _ => 0

/-- Lifetime amount paid out to the owner of challenge `id` according to the
event log. -/
def claimedTotal (log : List Event) (id : Nat) : Nat :=
  (log.map (eventClaim id)).sum

/-- The function `setVerifier` (`onlyOwner`). -/
def setVerifier (sender v : Nat) (s : VaultState) : Except Err VaultState :=
  if sender = s.owner then .ok { s with verifier := v } else .error .notOwner

/-- The fresh challenge record written by `createChallenge`. -/
def newChallenge (sender beneficiary amount startTime durationDays : Nat) : Challenge :=
  { user := sender, beneficiary := beneficiary, principal := amount,
    released := 0, penalized := 0, startTime := startTime,
    durationDays := durationDays, dailySlice := amount / durationDays,
    finalized := false, dayUnlocked := fun _ => false }

/-- The committed state of a successful `createChallenge`. -/
def createdState (sender beneficiary amount startTime durationDays : Nat)
    (s : VaultState) : VaultState :=
  { setChallenge s (s.nextChallengeId + 1)
      (newChallenge sender beneficiary amount startTime durationDays) with
    nextChallengeId := s.nextChallengeId + 1,
    inXfers := s.inXfers ++ [(sender, amount)],
    log := s.log ++ [Event.challengeCreated (s.nextChallengeId + 1) sender beneficiary
                       amount startTime durationDays] }

/-- The function `createChallenge`.  `now` is `block.timestamp`; `pullOk` is
the outcome of the `IERC20.transferFrom` pull (a failing pull makes the whole
call revert, so it is checked before the committed state is produced). -/
def createChallenge (now : Nat) (pullOk : Bool)
    (sender beneficiary amount startTime durationDays : Nat)
    (s : VaultState) : Except Err (Nat × VaultState) :=
  if beneficiary = 0 then .error .beneficiaryZero
  else if amount = 0 then .error .amountZero
  else if durationDays = 0 then .error .durationZero
  else if startTime < now then .error .startPast
  else if pullOk then
    .ok (s.nextChallengeId + 1, createdState sender beneficiary amount startTime durationDays s)
  else .error .transferFromFail

/-- The challenge record after a successful attestation of `dayIndex`. -/
def attestUpdate (c : Challenge) (dayIndex : Nat) : Challenge :=
  { c with dayUnlocked := fun j => if j = dayIndex then true else c.dayUnlocked j,
           released := c.released + c.dailySlice }

/-- The committed state of a successful `attestCompletion`. -/
def attestedState (id dayIndex : Nat) (s : VaultState) : VaultState :=
  { setChallenge s id (attestUpdate (s.challenges id) dayIndex) with
    log := s.log ++ [Event.dayAttested id dayIndex (s.challenges id).dailySlice] }

/-- The function `attestCompletion` (`onlyVerifier`). -/
def attestCompletion (now sender id dayIndex : Nat) (s : VaultState) :
    Except Err VaultState :=
  if sender = s.verifier then
    if (s.challenges id).finalized then .error .alreadyFinalized
    else if (s.challenges id).user = 0 then .error .notFound
    else if dayIndex < (s.challenges id).durationDays then
      if (s.challenges id).dayUnlocked dayIndex then .error .alreadyUnlocked
      else if now < (s.challenges id).startTime + dayIndex * 86400 then .error .dayNotStarted
      else .ok (attestedState id dayIndex s)
    else .error .badDay
  else .error .notVerifier

/-- The ledger with `released` of challenge `id` zeroed. -/
def zeroReleasedState (id : Nat) (s : VaultState) : VaultState :=
  setChallenge s id { s.challenges id with released := 0 }

/-- Lines of `claimUnlocked` up to and including the effects phase: the
authorization check, the `claimable > 0` check, and the zeroing of `released`
in storage.  Returns the claimable amount together with the ledger state as it
stands at the moment the external `IERC20.transfer` call is made. -/
def claimUnlockedEffects (sender id : Nat) (s : VaultState) :
    Except Err (Nat × VaultState) :=
  if (s.challenges id).user = sender then
    if 0 < (s.challenges id).released then
      .ok ((s.challenges id).released, zeroReleasedState id s)
    else .error .nothingToClaim
  else .error .notUser

/-- The committed state of a successful `claimUnlocked`, given the
post-effects ledger `s1` and the claimed amount. -/
def claimPaidState (sender id claimable : Nat) (s1 : VaultState) : VaultState :=
  { s1 with outXfers := s1.outXfers ++ [(sender, claimable)],
            log := s1.log ++ [Event.claimed id sender claimable] }

/-- The function `claimUnlocked`: effects phase, then the external payout
(outcome given by the `xferOk` oracle), then the `Claimed` event. -/
def claimUnlocked (xferOk : Bool) (sender id : Nat) (s : VaultState) :
    Except Err VaultState :=
  match claimUnlockedEffects sender id s with
  | .error e => .error e
  | .ok (claimable, s1) =>
    if xferOk then .ok (claimPaidState sender id claimable s1)
    else .error .transferFail

/-- The internal function `_sumUnlocked`: loop over `0 ≤ i < durationDays`
adding `dailySlice` for each unlocked day. -/
def _sumUnlocked (c : Challenge) : Nat :=
  (List.range c.durationDays).foldl
    (fun total i => if c.dayUnlocked i then total + c.dailySlice else total) 0

/-- The amount `principal - _sumUnlocked(c)` swept to the beneficiary. -/
def finalizeRemainder (c : Challenge) : Nat := c.principal - _sumUnlocked c

/-- The ledger part of a successful `finalize` (penalized bumped, flag set,
event emitted); the beneficiary transfer is appended separately when the
remainder is positive. -/
def finalizedState (id : Nat) (s : VaultState) : VaultState :=
  { setChallenge s id
      { s.challenges id with
        penalized := (s.challenges id).penalized + finalizeRemainder (s.challenges id),
        finalized := true } with
    log := s.log ++ [Event.finalized id (finalizeRemainder (s.challenges id))] }

/-- The function `finalize`.  Any caller; `xferOk` is the outcome of the
beneficiary payout (only consulted when the remainder is positive, exactly as
in the source). -/
def finalize (now : Nat) (xferOk : Bool) (sender id : Nat) (s : VaultState) :
    Except Err VaultState :=
  if (s.challenges id).finalized then .error .alreadyFinalized
  else if (s.challenges id).user = 0 then .error .notFound
  else if now < (s.challenges id).startTime + (s.challenges id).durationDays * 86400 then
    .error .notEnded
  else if 0 < finalizeRemainder (s.challenges id) then
    if xferOk then
      .ok { finalizedState id s with
            outXfers := (finalizedState id s).outXfers
              ++ [((s.challenges id).beneficiary, finalizeRemainder (s.challenges id))] }
    else .error .beneficiaryXferFail
  else .ok (finalizedState id s)

/-- One external transaction against the vault, carrying `block.timestamp`,
`msg.sender` and the oracles for the external token-transfer outcomes. -/
inductive Tx where
  | createTx (now : Nat) (pullOk : Bool) (sender beneficiary amount startTime durationDays : Nat)
  | attestTx (now sender id dayIndex : Nat)
  | claimTx (xferOk : Bool) (sender id : Nat)
  | finalizeTx (now : Nat) (xferOk : Bool) (sender id : Nat)
  | setVerifierTx (sender v : Nat)
deriving DecidableEq, Repr

/-- Dispatch one transaction. -/
def stepTx (s : VaultState) : Tx → Except Err VaultState
  | .createTx now pullOk sender beneficiary amount startTime durationDays =>
      (createChallenge now pullOk sender beneficiary amount startTime durationDays s).map
        (fun p => p.2)
  | .attestTx now sender id dayIndex => attestCompletion now sender id dayIndex s
  | .claimTx xferOk sender id => claimUnlocked xferOk sender id s
  | .finalizeTx now xferOk sender id => finalize now xferOk sender id s
  | .setVerifierTx sender v => setVerifier sender v s

/-- Whether an `Except` result is a success. -/
def isOk : Except Err VaultState → Bool
  | .ok _ => true
  | .error _ => false

/-- Transaction application with EVM revert semantics: a failing transaction
leaves the state untouched. -/
def execTx (s : VaultState) (t : Tx) : VaultState :=
  match stepTx s t with
  | .ok s2 => s2
  | .error _ => s

/-- Run a list of transactions in order. -/
def execTrace (s : VaultState) (txs : List Tx) : VaultState :=
  txs.foldl execTx s

/-- Every state reachable from a freshly deployed vault by some transaction
trace. -/
def reach (deployer initialVerifier : Nat) (txs : List Tx) : VaultState :=
  execTrace (initState deployer initialVerifier) txs

/-- Ghost count of unlocked day indices inside the challenge window. -/
def unlockedCount (c : Challenge) : Nat :=
  (List.range c.durationDays).countP c.dayUnlocked

/-! ### Ghost accounting lemmas -/

theorem claimedTotal_append (l1 l2 : List Event) (id : Nat) :
    claimedTotal (l1 ++ l2) id = claimedTotal l1 id + claimedTotal l2 id := by
  simp [claimedTotal, List.map_append, List.sum_append]

theorem claimedTotal_single_claimed (id cid owner amount : Nat) :
    claimedTotal [Event.claimed cid owner amount] id
      = if cid = id then amount else 0 := by
  simp [claimedTotal, eventClaim]

theorem claimedTotal_single_other (id : Nat) (e : Event)
    (h : ∀ cid owner amount, e ≠ Event.claimed cid owner amount) :
    claimedTotal [e] id = 0 := by
  cases e with
  | claimed cid owner amount => exact absurd rfl (h cid owner amount)
  | challengeCreated a b c d f g => simp [claimedTotal, eventClaim]
  | dayAttested a b c => simp [claimedTotal, eventClaim]
  | finalized a b => simp [claimedTotal, eventClaim]

theorem foldl_if_add (p : Nat → Bool) (k : Nat) :
    ∀ (l : List Nat) (a : Nat),
      l.foldl (fun total i => if p i then total + k else total) a
        = a + l.countP p * k := by
  intro l
  induction l with
  | nil => intro a; simp
  | cons x xs ih =>
      intro a
      by_cases hx : p x
      · simp [List.foldl_cons, List.countP_cons, hx, ih, Nat.add_mul]
        omega
      · simp [List.foldl_cons, List.countP_cons, hx, ih]

theorem sumUnlocked_eq (c : Challenge) :
    _sumUnlocked c = unlockedCount c * c.dailySlice := by
  simp [_sumUnlocked, unlockedCount, foldl_if_add]

theorem unlockedCount_le (c : Challenge) : unlockedCount c ≤ c.durationDays := by
  calc unlockedCount c ≤ (List.range c.durationDays).length := List.countP_le_length _
    _ = c.durationDays := List.length_range _

theorem countP_update (f : Nat → Bool) (i : Nat) :
    ∀ (l : List Nat), l.Nodup → i ∈ l → f i = false →
      l.countP (fun j => if j = i then true else f j) = l.countP f + 1 := by
  intro l
  induction l with
  | nil => intro _ hi _; cases hi
  | cons x xs ih =>
      intro hnd hi hf
      rcases List.nodup_cons.mp hnd with ⟨hx, hxs⟩
      rcases List.mem_cons.mp hi with hix | hix
      · have hcount : xs.countP (fun j => if j = i then true else f j) = xs.countP f := by
          apply List.countP_congr
          intro a ha
          have hai : a ≠ i := fun hc => hx (by rw [← hix, ← hc]; exact ha)
          simp [hai]
        rw [List.countP_cons, List.countP_cons, hcount, ← hix]
        simp [hf]
      · have hxi : x ≠ i := fun hc => hx (hc ▸ hix)
        rw [List.countP_cons, List.countP_cons, ih hxs hix hf, if_neg hxi]
        omega

theorem unlockedCount_attest (c : Challenge) (i : Nat)
    (hi : i < c.durationDays) (hf : c.dayUnlocked i = false) :
    unlockedCount (attestUpdate c i) = unlockedCount c + 1 := by
  have : (attestUpdate c i).durationDays = c.durationDays := rfl
  simp only [unlockedCount, attestUpdate, this]
  exact countP_update c.dayUnlocked i (List.range c.durationDays)
    (List.nodup_range _) (List.mem_range.mpr hi) hf

theorem unlockedCount_empty : unlockedCount emptyChallenge = 0 := rfl

theorem unlockedCount_new (sender beneficiary amount startTime durationDays : Nat) :
    unlockedCount (newChallenge sender beneficiary amount startTime durationDays) = 0 := by
  simp [unlockedCount, newChallenge, List.countP_eq_zero]

/-! ### Inversion lemmas: what a successful call implies -/

theorem setVerifier_ok {sender v : Nat} {s s2 : VaultState}
    (h : setVerifier sender v s = .ok s2) :
    sender = s.owner ∧ s2 = { s with verifier := v } := by
  unfold setVerifier at h
  split_ifs at h with h1
  · exact ⟨h1, (Except.ok.injEq _ _ ▸ h).symm⟩

theorem createChallenge_ok {now : Nat} {pullOk : Bool}
    {sender beneficiary amount startTime durationDays : Nat}
    {s : VaultState} {id : Nat} {s2 : VaultState}
    (h : createChallenge now pullOk sender beneficiary amount startTime durationDays s
          = .ok (id, s2)) :
    beneficiary ≠ 0 ∧ amount ≠ 0 ∧ durationDays ≠ 0 ∧ now ≤ startTime ∧ pullOk = true ∧
    id = s.nextChallengeId + 1 ∧
    s2 = createdState sender beneficiary amount startTime durationDays s := by
  unfold createChallenge at h
  split_ifs at h with h1 h2 h3 h4 h5
  · simp only [Except.ok.injEq, Prod.mk.injEq] at h
    exact ⟨h1, h2, h3, by omega, h5, h.1.symm, h.2.symm⟩

theorem attestCompletion_ok {now sender id dayIndex : Nat} {s s2 : VaultState}
    (h : attestCompletion now sender id dayIndex s = .ok s2) :
    sender = s.verifier ∧ (s.challenges id).finalized = false ∧
    (s.challenges id).user ≠ 0 ∧ dayIndex < (s.challenges id).durationDays ∧
    (s.challenges id).dayUnlocked dayIndex = false ∧
    (s.challenges id).startTime + dayIndex * 86400 ≤ now ∧
    s2 = attestedState id dayIndex s := by
  unfold attestCompletion at h
  split_ifs at h with h1 h2 h3 h4 h5 h6
  · simp only [Except.ok.injEq] at h
    exact ⟨h1, by simpa using h2, h3, h4, by simpa using h5, by omega, h.symm⟩

theorem claimUnlockedEffects_ok {sender id : Nat} {s : VaultState}
    {claimable : Nat} {s1 : VaultState}
    (h : claimUnlockedEffects sender id s = .ok (claimable, s1)) :
    (s.challenges id).user = sender ∧ claimable = (s.challenges id).released ∧
    0 < claimable ∧ s1 = zeroReleasedState id s := by
  unfold claimUnlockedEffects at h
  split_ifs at h with h1 h2
  · simp only [Except.ok.injEq, Prod.mk.injEq] at h
    exact ⟨h1, h.1.symm, h.1 ▸ h2, h.2.symm⟩

theorem claimUnlocked_ok {xferOk : Bool} {sender id : Nat} {s s2 : VaultState}
    (h : claimUnlocked xferOk sender id s = .ok s2) :
    (s.challenges id).user = sender ∧ 0 < (s.challenges id).released ∧ xferOk = true ∧
    s2 = claimPaidState sender id (s.challenges id).released (zeroReleasedState id s) := by
  unfold claimUnlocked at h
  rcases heff : claimUnlockedEffects sender id s with e | p
  · rw [heff] at h; cases h
  · rcases p with ⟨claimable, s1⟩
    rw [heff] at h
    rcases claimUnlockedEffects_ok heff with ⟨hu, hc, hpos, hs1⟩
    split_ifs at h with hx
    simp only [Except.ok.injEq] at h
    exact ⟨hu, hc ▸ hpos, hx, by rw [← h, hc, hs1]⟩

theorem finalize_ok {now : Nat} {xferOk : Bool} {sender id : Nat} {s s2 : VaultState}
    (h : finalize now xferOk sender id s = .ok s2) :
    (s.challenges id).finalized = false ∧ (s.challenges id).user ≠ 0 ∧
    (s.challenges id).startTime + (s.challenges id).durationDays * 86400 ≤ now ∧
    ((0 < finalizeRemainder (s.challenges id) ∧ xferOk = true ∧
        s2 = { finalizedState id s with
               outXfers := (finalizedState id s).outXfers
                 ++ [((s.challenges id).beneficiary, finalizeRemainder (s.challenges id))] })
      ∨ (finalizeRemainder (s.challenges id) = 0 ∧ s2 = finalizedState id s)) := by
  unfold finalize at h
  split_ifs at h with h1 h2 h3 h4 h5
  · simp only [Except.ok.injEq] at h
    exact ⟨by simpa using h1, h2, by omega, Or.inl ⟨h4, h5, h.symm⟩⟩
  · simp only [Except.ok.injEq] at h
    exact ⟨by simpa using h1, h2, by omega, Or.inr ⟨by omega, h.symm⟩⟩

/-! ### The inductive invariant -/

/-- Per-challenge ledger invariant, relative to the event log.
`accounting` ties the lifetime amount claimed plus the outstanding `released`
balance to the attested days; `penNotFin`/`penFin` pin down `penalized`
before and after finalization. -/
structure ChallengeInv (log : List Event) (id : Nat) (c : Challenge) : Prop where
  accounting : claimedTotal log id + c.released = unlockedCount c * c.dailySlice
  sliceDef : c.dailySlice = c.principal / c.durationDays
  penNotFin : c.finalized = false → c.penalized = 0
  penFin : c.finalized = true →
    c.penalized + unlockedCount c * c.dailySlice = c.principal
  unlockedRange : ∀ i, c.dayUnlocked i = true → i < c.durationDays
  unlockedUser : ∀ i, c.dayUnlocked i = true → c.user ≠ 0

/-- Global state invariant: every challenge slot satisfies its ledger
invariant and slots beyond `nextChallengeId` are untouched. -/
structure StateInv (s : VaultState) : Prop where
  perChallenge : ∀ id, ChallengeInv s.log id (s.challenges id)
  fresh : ∀ id, s.nextChallengeId < id → s.challenges id = emptyChallenge

theorem unlockedCount_mul_le (c : Challenge)
    (hslice : c.dailySlice = c.principal / c.durationDays) :
    unlockedCount c * c.dailySlice ≤ c.principal := by
  calc unlockedCount c * c.dailySlice
      ≤ c.durationDays * c.dailySlice :=
        Nat.mul_le_mul_right _ (unlockedCount_le c)
    _ = c.dailySlice * c.durationDays := Nat.mul_comm _ _
    _ ≤ c.principal := by rw [hslice]; exact Nat.div_mul_le_self _ _

/-- Conservation inequality, derived from the per-challenge invariant. -/
theorem inv_conservation {log : List Event} {id : Nat} {c : Challenge}
    (h : ChallengeInv log id c) :
    claimedTotal log id + c.released + c.penalized ≤ c.principal := by
  have hmul := unlockedCount_mul_le c h.sliceDef
  have hacc := h.accounting
  cases hfin : c.finalized with
  | false => have := h.penNotFin hfin; omega
  | true => have := h.penFin hfin; omega

theorem claimedTotal_of_fresh {s : VaultState} (hs : StateInv s) {id : Nat}
    (h : s.nextChallengeId < id) : claimedTotal s.log id = 0 := by
  have hacc := (hs.perChallenge id).accounting
  rw [hs.fresh id h] at hacc
  simpa [unlockedCount_empty, emptyChallenge] using hacc

theorem fresh_released {s : VaultState} (hs : StateInv s) {id : Nat}
    (h : s.nextChallengeId < id) : (s.challenges id).released = 0 := by
  rw [hs.fresh id h]; rfl

/-- A challenge slot holding a record with a nonzero `user` was created, so
its index is at most `nextChallengeId`. -/
theorem created_le {s : VaultState} (hs : StateInv s) {id : Nat}
    (h : (s.challenges id).user ≠ 0) : id ≤ s.nextChallengeId := by
  by_contra hc
  apply h
  rw [hs.fresh id (by omega)]
  rfl

/-! ### Preservation of the invariant by each operation -/

theorem setChallenge_at (s : VaultState) (id : Nat) (c : Challenge) :
    (setChallenge s id c).challenges id = c := by
  simp [setChallenge]

theorem setChallenge_other (s : VaultState) (id : Nat) (c : Challenge) (j : Nat)
    (h : j ≠ id) : (setChallenge s id c).challenges j = s.challenges j := by
  simp [setChallenge, h]

theorem setVerifier_preserves {sender v : Nat} {s s2 : VaultState}
    (h : setVerifier sender v s = .ok s2) (hs : StateInv s) : StateInv s2 := by
  obtain ⟨-, rfl⟩ := setVerifier_ok h
  exact ⟨hs.perChallenge, hs.fresh⟩

theorem createChallenge_preserves {now : Nat} {pullOk : Bool}
    {sender beneficiary amount startTime durationDays : Nat}
    {s : VaultState} {id : Nat} {s2 : VaultState}
    (h : createChallenge now pullOk sender beneficiary amount startTime durationDays s
          = .ok (id, s2)) (hs : StateInv s) : StateInv s2 := by
  obtain ⟨-, -, -, -, -, -, rfl⟩ := createChallenge_ok h
  constructor
  · intro j
    have hlog : claimedTotal (createdState sender beneficiary amount startTime durationDays s).log j
        = claimedTotal s.log j := by
      simp only [createdState, setChallenge]
      rw [claimedTotal_append, claimedTotal_single_other _ _ (by intro a b c h; cases h)]
      omega
    by_cases hj : j = s.nextChallengeId + 1
    · subst hj
      have hch : (createdState sender beneficiary amount startTime durationDays s).challenges
          (s.nextChallengeId + 1) = newChallenge sender beneficiary amount startTime durationDays := by
        simp [createdState, setChallenge]
      rw [hch]
      constructor
      · rw [hlog, claimedTotal_of_fresh hs (by omega), unlockedCount_new]
        simp [newChallenge]
      · simp [newChallenge]
      · intro _; simp [newChallenge]
      · intro hfin; simp [newChallenge] at hfin
      · intro i hi; simp [newChallenge] at hi
      · intro i hi; simp [newChallenge] at hi
    · have hch : (createdState sender beneficiary amount startTime durationDays s).challenges j
          = s.challenges j := by
        simp [createdState, setChallenge, hj]
      rw [hch]
      have hold := hs.perChallenge j
      exact ⟨by rw [hlog]; exact hold.accounting, hold.sliceDef, hold.penNotFin, hold.penFin,
             hold.unlockedRange, hold.unlockedUser⟩
  · intro j hj
    simp only [createdState] at hj ⊢
    have hj2 : j ≠ s.nextChallengeId + 1 := by omega
    rw [setChallenge_other s _ _ j hj2]
    exact hs.fresh j (by omega)

theorem attestCompletion_preserves {now sender id dayIndex : Nat} {s s2 : VaultState}
    (h : attestCompletion now sender id dayIndex s = .ok s2) (hs : StateInv s) :
    StateInv s2 := by
  obtain ⟨-, hfin, huser, hday, hunl, -, rfl⟩ := attestCompletion_ok h
  have hidle : id ≤ s.nextChallengeId := created_le hs huser
  constructor
  · intro j
    have hlog : claimedTotal (attestedState id dayIndex s).log j = claimedTotal s.log j := by
      simp only [attestedState, setChallenge]
      rw [claimedTotal_append, claimedTotal_single_other _ _ (by intro a b c h; cases h)]
      omega
    by_cases hj : j = id
    · subst hj
      have hch : (attestedState j dayIndex s).challenges j
          = attestUpdate (s.challenges j) dayIndex := by
        simp [attestedState, setChallenge]
      rw [hch]
      have hold := hs.perChallenge j
      have hcount := unlockedCount_attest (s.challenges j) dayIndex hday hunl
      constructor
      · rw [hlog, hcount, Nat.add_mul, Nat.one_mul]
        have hacc := hold.accounting
        simp only [attestUpdate]
        omega
      · exact hold.sliceDef
      · intro _
        exact hold.penNotFin hfin
      · intro hcontra
        simp only [attestUpdate] at hcontra
        rw [hfin] at hcontra
        cases hcontra
      · intro i hi
        simp only [attestUpdate] at hi ⊢
        by_cases hdi : i = dayIndex
        · omega
        · rw [if_neg hdi] at hi
          exact (hs.perChallenge j).unlockedRange i hi
      · intro i hi
        simp only [attestUpdate] at hi ⊢
        by_cases hdi : i = dayIndex
        · exact huser
        · rw [if_neg hdi] at hi
          exact (hs.perChallenge j).unlockedUser i hi
    · have hch : (attestedState id dayIndex s).challenges j = s.challenges j := by
        simp [attestedState, setChallenge, hj]
      rw [hch]
      have hold := hs.perChallenge j
      exact ⟨by rw [hlog]; exact hold.accounting, hold.sliceDef, hold.penNotFin, hold.penFin,
             hold.unlockedRange, hold.unlockedUser⟩
  · intro j hj
    simp only [attestedState, setChallenge] at hj ⊢
    have hj2 : ¬j = id := by omega
    simp only [hj2, if_false]
    exact hs.fresh j hj

theorem claimUnlocked_preserves {xferOk : Bool} {sender id : Nat} {s s2 : VaultState}
    (h : claimUnlocked xferOk sender id s = .ok s2) (hs : StateInv s) : StateInv s2 := by
  obtain ⟨huser, hrel, -, rfl⟩ := claimUnlocked_ok h
  have hidle : id ≤ s.nextChallengeId := by
    by_contra hc
    rw [fresh_released hs (by omega)] at hrel
    exact Nat.lt_irrefl 0 hrel
  constructor
  · intro j
    have hlog : claimedTotal (claimPaidState sender id (s.challenges id).released
          (zeroReleasedState id s)).log j
        = claimedTotal s.log j + (if id = j then (s.challenges id).released else 0) := by
      simp only [claimPaidState, zeroReleasedState, setChallenge]
      rw [claimedTotal_append, claimedTotal_single_claimed]
    by_cases hj : j = id
    · subst hj
      have hch : (claimPaidState sender j (s.challenges j).released
            (zeroReleasedState j s)).challenges j
          = { s.challenges j with released := 0 } := by
        simp [claimPaidState, zeroReleasedState, setChallenge]
      rw [hch]
      have hold := hs.perChallenge j
      constructor
      · have hacc := hold.accounting
        have hcount : unlockedCount { s.challenges j with released := 0 }
            = unlockedCount (s.challenges j) := rfl
        rw [hlog, hcount]
        simp only [if_pos]
        omega
      · exact hold.sliceDef
      · exact hold.penNotFin
      · exact hold.penFin
      · exact hold.unlockedRange
      · exact hold.unlockedUser
    · have hch : (claimPaidState sender id (s.challenges id).released
            (zeroReleasedState id s)).challenges j = s.challenges j := by
        simp [claimPaidState, zeroReleasedState, setChallenge, hj]
      rw [hch]
      have hold := hs.perChallenge j
      have hj2 : ¬id = j := fun hc => hj hc.symm
      exact ⟨by rw [hlog]; simp only [hj2, if_false]; rw [Nat.add_zero]; exact hold.accounting,
             hold.sliceDef, hold.penNotFin, hold.penFin, hold.unlockedRange, hold.unlockedUser⟩
  · intro j hj
    simp only [claimPaidState, zeroReleasedState, setChallenge] at hj ⊢
    have hj2 : ¬j = id := by omega
    simp only [hj2, if_false]
    exact hs.fresh j hj

theorem finalizedState_preserves {id : Nat} {s : VaultState}
    (hfin : (s.challenges id).finalized = false)
    (huser : (s.challenges id).user ≠ 0)
    (hs : StateInv s) : StateInv (finalizedState id s) := by
  have hidle : id ≤ s.nextChallengeId := created_le hs huser
  constructor
  · intro j
    have hlog : claimedTotal (finalizedState id s).log j = claimedTotal s.log j := by
      simp only [finalizedState, setChallenge]
      rw [claimedTotal_append, claimedTotal_single_other _ _ (by intro a b c h; cases h)]
      omega
    by_cases hj : j = id
    · subst hj
      have hch : (finalizedState j s).challenges j
          = { s.challenges j with
              penalized := (s.challenges j).penalized + finalizeRemainder (s.challenges j),
              finalized := true } := by
        simp [finalizedState, setChallenge]
      rw [hch]
      have hold := hs.perChallenge j
      have hcount : unlockedCount { s.challenges j with
            penalized := (s.challenges j).penalized + finalizeRemainder (s.challenges j),
            finalized := true } = unlockedCount (s.challenges j) := rfl
      constructor
      · rw [hlog, hcount]
        exact hold.accounting
      · exact hold.sliceDef
      · intro hcontra
        cases hcontra
      · intro _
        rw [hcount]
        have hpen := hold.penNotFin hfin
        have hfr : finalizeRemainder (s.challenges j)
            = (s.challenges j).principal - unlockedCount (s.challenges j) * (s.challenges j).dailySlice := by
          rw [finalizeRemainder, sumUnlocked_eq]
        have hmul := unlockedCount_mul_le (s.challenges j) hold.sliceDef
        simp only
        omega
      · exact hold.unlockedRange
      · exact hold.unlockedUser
    · have hch : (finalizedState id s).challenges j = s.challenges j := by
        simp [finalizedState, setChallenge, hj]
      rw [hch]
      have hold := hs.perChallenge j
      exact ⟨by rw [hlog]; exact hold.accounting, hold.sliceDef, hold.penNotFin, hold.penFin,
             hold.unlockedRange, hold.unlockedUser⟩
  · intro j hj
    simp only [finalizedState, setChallenge] at hj ⊢
    have hj2 : ¬j = id := by omega
    simp only [hj2, if_false]
    exact hs.fresh j hj

theorem finalize_preserves {now : Nat} {xferOk : Bool} {sender id : Nat} {s s2 : VaultState}
    (h : finalize now xferOk sender id s = .ok s2) (hs : StateInv s) : StateInv s2 := by
  obtain ⟨hfin, huser, -, hcase⟩ := finalize_ok h
  have hbase := finalizedState_preserves hfin huser hs
  rcases hcase with ⟨-, -, rfl⟩ | ⟨-, rfl⟩
  · exact ⟨hbase.perChallenge, hbase.fresh⟩
  · exact hbase

theorem execTx_preserves (s : VaultState) (t : Tx) (hs : StateInv s) :
    StateInv (execTx s t) := by
  rcases hstep : stepTx s t with e | s2
  · unfold execTx; rw [hstep]; exact hs
  · have h2 : StateInv s2 := by
      cases t with
      | createTx now pullOk sender beneficiary amount startTime durationDays =>
          simp only [stepTx] at hstep
          rcases hcc : createChallenge now pullOk sender beneficiary amount startTime
              durationDays s with e | p
          · rw [hcc] at hstep; simp [Except.map] at hstep
          · rcases p with ⟨cid, s3⟩
            rw [hcc] at hstep
            simp only [Except.map, Except.ok.injEq] at hstep
            exact hstep ▸ createChallenge_preserves hcc hs
      | attestTx now sender id dayIndex => exact attestCompletion_preserves hstep hs
      | claimTx xferOk sender id => exact claimUnlocked_preserves hstep hs
      | finalizeTx now xferOk sender id =>
          simp only [stepTx] at hstep
          exact finalize_preserves hstep hs
      | setVerifierTx sender v => exact setVerifier_preserves hstep hs
    unfold execTx; rw [hstep]; exact h2

theorem execTrace_preserves (txs : List Tx) :
    ∀ (s : VaultState), StateInv s → StateInv (execTrace s txs) := by
  induction txs with
  | nil => intro s hs; exact hs
  | cons t ts ih =>
      intro s hs
      exact ih (execTx s t) (execTx_preserves s t hs)

theorem emptyChallenge_inv (log : List Event) (id : Nat)
    (h : claimedTotal log id = 0) : ChallengeInv log id emptyChallenge := by
  constructor
  · rw [h]; rfl
  · rfl
  · intro _; rfl
  · intro hcontra; cases hcontra
  · intro i hi; cases hi
  · intro i hi; cases hi

theorem initState_inv (deployer initialVerifier : Nat) :
    StateInv (initState deployer initialVerifier) := by
  constructor
  · intro id
    exact emptyChallenge_inv [] id rfl
  · intro id _
    rfl

/-- Every reachable state satisfies the global invariant. -/
theorem reach_inv (deployer initialVerifier : Nat) (txs : List Tx) :
    StateInv (reach deployer initialVerifier txs) :=
  execTrace_preserves txs _ (initState_inv deployer initialVerifier)

/-! ### Monotonicity of terminal facts along traces -/

theorem finalized_le {s : VaultState} (hs : StateInv s) {id : Nat}
    (h : (s.challenges id).finalized = true) : id ≤ s.nextChallengeId := by
  by_contra hc
  rw [hs.fresh id (by omega)] at h
  simp [emptyChallenge] at h

theorem unlocked_le {s : VaultState} (hs : StateInv s) {id i : Nat}
    (h : (s.challenges id).dayUnlocked i = true) : id ≤ s.nextChallengeId := by
  by_contra hc
  rw [hs.fresh id (by omega)] at h
  simp [emptyChallenge] at h

theorem execTx_error {s : VaultState} {t : Tx} {e : Err}
    (h : stepTx s t = .error e) : execTx s t = s := by
  unfold execTx
  rw [h]

theorem execTx_of_not_ok {s : VaultState} {t : Tx}
    (h : isOk (stepTx s t) = false) : execTx s t = s := by
  rcases hstep : stepTx s t with e | s2
  · unfold execTx; rw [hstep]
  · rw [hstep] at h; cases h

theorem isOk_exists {s : VaultState} {t : Tx} (h : isOk (stepTx s t) = true) :
    stepTx s t = .ok (execTx s t) := by
  rcases hstep : stepTx s t with e | s2
  · rw [hstep] at h; cases h
  · unfold execTx; rw [hstep]

theorem finalized_mono_tx {s : VaultState} (hs : StateInv s) (t : Tx) {id : Nat}
    (h : (s.challenges id).finalized = true) :
    ((execTx s t).challenges id).finalized = true := by
  have hle := finalized_le hs h
  rcases hstep : stepTx s t with e | s2
  · unfold execTx; rw [hstep]; exact h
  · have hgoal : (s2.challenges id).finalized = true := by
      cases t with
      | createTx now pullOk sender beneficiary amount startTime durationDays =>
          simp only [stepTx] at hstep
          rcases hcc : createChallenge now pullOk sender beneficiary amount startTime
              durationDays s with e2 | p
          · rw [hcc] at hstep; simp [Except.map] at hstep
          · rcases p with ⟨cid, s3⟩
            rw [hcc] at hstep
            simp only [Except.map, Except.ok.injEq] at hstep
            obtain ⟨-, -, -, -, -, -, rfl⟩ := createChallenge_ok hcc
            rw [← hstep]
            have hne : ¬ id = s.nextChallengeId + 1 := by omega
            simpa [createdState, setChallenge, hne] using h
      | attestTx n sd aid adx =>
          simp only [stepTx] at hstep
          obtain ⟨-, -, -, -, -, -, rfl⟩ := attestCompletion_ok hstep
          by_cases hj : id = aid
          · subst hj
            simpa [attestedState, setChallenge, attestUpdate] using h
          · simpa [attestedState, setChallenge, hj] using h
      | claimTx xferOk sd cid =>
          simp only [stepTx] at hstep
          obtain ⟨-, -, -, rfl⟩ := claimUnlocked_ok hstep
          by_cases hj : id = cid
          · subst hj
            simpa [claimPaidState, zeroReleasedState, setChallenge] using h
          · simpa [claimPaidState, zeroReleasedState, setChallenge, hj] using h
      | finalizeTx n xferOk sd fid =>
          simp only [stepTx] at hstep
          obtain ⟨-, -, -, hcase⟩ := finalize_ok hstep
          have hfs : ((finalizedState fid s).challenges id).finalized = true := by
            by_cases hj : id = fid
            · subst hj
              simp [finalizedState, setChallenge]
            · simpa [finalizedState, setChallenge, hj] using h
          rcases hcase with ⟨-, -, rfl⟩ | ⟨-, rfl⟩
          · simpa [finalizedState, setChallenge] using hfs
          · exact hfs
      | setVerifierTx sd v =>
          simp only [stepTx] at hstep
          obtain ⟨-, rfl⟩ := setVerifier_ok hstep
          exact h
    unfold execTx; rw [hstep]; exact hgoal

theorem unlocked_mono_tx {s : VaultState} (hs : StateInv s) (t : Tx) {id i : Nat}
    (h : (s.challenges id).dayUnlocked i = true) :
    ((execTx s t).challenges id).dayUnlocked i = true := by
  have hle := unlocked_le hs h
  rcases hstep : stepTx s t with e | s2
  · unfold execTx; rw [hstep]; exact h
  · have hgoal : (s2.challenges id).dayUnlocked i = true := by
      cases t with
      | createTx now pullOk sender beneficiary amount startTime durationDays =>
          simp only [stepTx] at hstep
          rcases hcc : createChallenge now pullOk sender beneficiary amount startTime
              durationDays s with e2 | p
          · rw [hcc] at hstep; simp [Except.map] at hstep
          · rcases p with ⟨cid, s3⟩
            rw [hcc] at hstep
            simp only [Except.map, Except.ok.injEq] at hstep
            obtain ⟨-, -, -, -, -, -, rfl⟩ := createChallenge_ok hcc
            rw [← hstep]
            have hne : ¬ id = s.nextChallengeId + 1 := by omega
            simpa [createdState, setChallenge, hne] using h
      | attestTx n sd aid adx =>
          simp only [stepTx] at hstep
          obtain ⟨-, -, -, -, -, -, rfl⟩ := attestCompletion_ok hstep
          by_cases hj : id = aid
          · subst hj
            by_cases hdi : i = adx
            · simp [attestedState, setChallenge, attestUpdate, hdi]
            · simp only [attestedState, setChallenge, attestUpdate]
              simpa [hdi] using h
          · simpa [attestedState, setChallenge, hj] using h
      | claimTx xferOk sd cid =>
          simp only [stepTx] at hstep
          obtain ⟨-, -, -, rfl⟩ := claimUnlocked_ok hstep
          by_cases hj : id = cid
          · subst hj
            simpa [claimPaidState, zeroReleasedState, setChallenge] using h
          · simpa [claimPaidState, zeroReleasedState, setChallenge, hj] using h
      | finalizeTx n xferOk sd fid =>
          simp only [stepTx] at hstep
          obtain ⟨-, -, -, hcase⟩ := finalize_ok hstep
          have hfs : ((finalizedState fid s).challenges id).dayUnlocked i = true := by
            by_cases hj : id = fid
            · subst hj
              simpa [finalizedState, setChallenge] using h
            · simpa [finalizedState, setChallenge, hj] using h
          rcases hcase with ⟨-, -, rfl⟩ | ⟨-, rfl⟩
          · simpa [finalizedState, setChallenge] using hfs
          · exact hfs
      | setVerifierTx sd v =>
          simp only [stepTx] at hstep
          obtain ⟨-, rfl⟩ := setVerifier_ok hstep
          exact h
    unfold execTx; rw [hstep]; exact hgoal

theorem finalized_mono_trace (more : List Tx) :
    ∀ (s : VaultState), StateInv s → ∀ id, (s.challenges id).finalized = true →
      ((execTrace s more).challenges id).finalized = true := by
  induction more with
  | nil => intro s _ id h; exact h
  | cons t ts ih =>
      intro s hs id h
      exact ih (execTx s t) (execTx_preserves s t hs) id (finalized_mono_tx hs t h)

theorem unlocked_mono_trace (more : List Tx) :
    ∀ (s : VaultState), StateInv s → ∀ id i, (s.challenges id).dayUnlocked i = true →
      ((execTrace s more).challenges id).dayUnlocked i = true := by
  induction more with
  | nil => intro s _ id i h; exact h
  | cons t ts ih =>
      intro s hs id i h
      exact ih (execTx s t) (execTx_preserves s t hs) id i (unlocked_mono_tx hs t h)

/-! ### Behavior on finalized challenges and already-unlocked days -/

theorem attest_on_finalized {s : VaultState} {id : Nat}
    (h : (s.challenges id).finalized = true) (now sender dayIndex : Nat)
    (hsv : sender = s.verifier) :
    attestCompletion now sender id dayIndex s = .error .alreadyFinalized := by
  unfold attestCompletion
  rw [if_pos hsv, if_pos h]

theorem finalize_on_finalized {s : VaultState} {id : Nat}
    (h : (s.challenges id).finalized = true) (now : Nat) (xferOk : Bool) (sender : Nat) :
    finalize now xferOk sender id s = .error .alreadyFinalized := by
  unfold finalize
  rw [if_pos h]

theorem attest_not_ok_of_finalized {s : VaultState} {id : Nat}
    (h : (s.challenges id).finalized = true) (now sender dayIndex : Nat) :
    isOk (attestCompletion now sender id dayIndex s) = false := by
  rcases hres : attestCompletion now sender id dayIndex s with e | s2
  · rfl
  · obtain ⟨-, hfin, -⟩ := attestCompletion_ok hres
    rw [h] at hfin
    cases hfin

theorem attest_not_ok_of_unlocked {s : VaultState} {id dayIndex : Nat}
    (h : (s.challenges id).dayUnlocked dayIndex = true) (now sender : Nat) :
    isOk (attestCompletion now sender id dayIndex s) = false := by
  rcases hres : attestCompletion now sender id dayIndex s with e | s2
  · rfl
  · obtain ⟨-, -, -, -, hunl, -⟩ := attestCompletion_ok hres
    rw [h] at hunl
    cases hunl

theorem attest_on_unlocked {s : VaultState} {id dayIndex : Nat} (hs : StateInv s)
    (h : (s.challenges id).dayUnlocked dayIndex = true)
    (hfin : (s.challenges id).finalized = false) (now sender : Nat)
    (hsv : sender = s.verifier) :
    attestCompletion now sender id dayIndex s = .error .alreadyUnlocked := by
  have hrange := (hs.perChallenge id).unlockedRange dayIndex h
  have huser := (hs.perChallenge id).unlockedUser dayIndex h
  unfold attestCompletion
  rw [if_pos hsv, if_neg (by simp [hfin]), if_neg huser, if_pos hrange, if_pos h]

theorem finalize_ok_finalized {now : Nat} {xferOk : Bool} {sender id : Nat}
    {s s2 : VaultState} (h : finalize now xferOk sender id s = .ok s2) :
    (s2.challenges id).finalized = true := by
  obtain ⟨-, -, -, hcase⟩ := finalize_ok h
  rcases hcase with ⟨-, -, rfl⟩ | ⟨-, rfl⟩
  · simp [finalizedState, setChallenge]
  · simp [finalizedState, setChallenge]

theorem attest_ok_unlocked {now sender id dayIndex : Nat} {s s2 : VaultState}
    (h : attestCompletion now sender id dayIndex s = .ok s2) :
    (s2.challenges id).dayUnlocked dayIndex = true := by
  obtain ⟨-, -, -, -, -, -, rfl⟩ := attestCompletion_ok h
  simp [attestedState, setChallenge, attestUpdate]

/-- States reachable by running a trace, then one distinguished transaction,
then a further trace. -/
def reachAfter (deployer initialVerifier : Nat) (txs : List Tx) (t : Tx)
    (more : List Tx) : VaultState :=
  execTrace (execTx (reach deployer initialVerifier txs) t) more

/-! ### The claims -/

/-- C1.  Conservation: in every reachable state and for every challenge `id`,
the lifetime amount paid to the owner (sum of `Claimed` events) plus the
outstanding `released` balance plus `penalized` never exceeds `principal`;
and immediately after any successful `finalize` on a reachable state,
`penalized` plus `_sumUnlocked` (the sum of `dailySlice` over the unlocked
days) equals `principal` exactly. -/
theorem C1_conservation (deployer initialVerifier id : Nat) (txs : List Tx)
    (now : Nat) (xferOk : Bool) (sender fid : Nat) :
    (claimedTotal (reach deployer initialVerifier txs).log id
       + ((reach deployer initialVerifier txs).challenges id).released
       + ((reach deployer initialVerifier txs).challenges id).penalized
       ≤ ((reach deployer initialVerifier txs).challenges id).principal)
    ∧ (isOk (stepTx (reach deployer initialVerifier txs)
          (Tx.finalizeTx now xferOk sender fid)) = true →
       ((reachAfter deployer initialVerifier txs (Tx.finalizeTx now xferOk sender fid) []).challenges fid).penalized
         + _sumUnlocked ((reachAfter deployer initialVerifier txs
              (Tx.finalizeTx now xferOk sender fid) []).challenges fid)
         = ((reachAfter deployer initialVerifier txs
              (Tx.finalizeTx now xferOk sender fid) []).challenges fid).principal) := by
  have hs := reach_inv deployer initialVerifier txs
  constructor
  · exact inv_conservation (hs.perChallenge id)
  · intro hok
    have hstep := isOk_exists hok
    simp only [stepTx] at hstep
    have hpost : StateInv (execTx (reach deployer initialVerifier txs)
        (Tx.finalizeTx now xferOk sender fid)) :=
      execTx_preserves _ _ hs
    have hfin := finalize_ok_finalized hstep
    have hpen := (hpost.perChallenge fid).penFin hfin
    show _ + _sumUnlocked _ = _
    rw [sumUnlocked_eq]
    exact hpen

/-- C2.  A successful `claimUnlocked` is necessarily a call by the challenge
owner on a positive `released` balance; it zeroes `released` in the ledger
already at the moment the external payout is invoked (the post-effects state
`s1` produced by `claimUnlockedEffects` has `released = 0` and no transfer
recorded yet), the payout it then records is exactly the pre-call `released`
value, and immediately after the call `released = 0`. -/
theorem C2_claim_zeroes_then_pays {xferOk : Bool} {sender id : Nat}
    {s s2 : VaultState} (h : claimUnlocked xferOk sender id s = .ok s2) :
    sender = (s.challenges id).user ∧ 0 < (s.challenges id).released ∧
    (s2.challenges id).released = 0 ∧
    s2.outXfers = s.outXfers ++ [(sender, (s.challenges id).released)] ∧
    (∀ claimable s1, claimUnlockedEffects sender id s = .ok (claimable, s1) →
       claimable = (s.challenges id).released ∧ (s1.challenges id).released = 0 ∧
       s1.outXfers = s.outXfers) := by
  obtain ⟨hu, hrel, -, rfl⟩ := claimUnlocked_ok h
  refine ⟨hu.symm, hrel, ?_, ?_, ?_⟩
  · simp [claimPaidState, zeroReleasedState, setChallenge]
  · simp [claimPaidState, zeroReleasedState, setChallenge]
  · intro claimable s1 heff
    obtain ⟨-, hc, -, rfl⟩ := claimUnlockedEffects_ok heff
    exact ⟨hc, by simp [zeroReleasedState, setChallenge], by simp [zeroReleasedState, setChallenge]⟩

/-- C3.  If the payout fails during `claimUnlocked`, the call fails with the
transfer error and (by revert semantics) the ledger, including `released`, is
exactly as before the call; a retry whose payout succeeds then pays out the
same amount exactly once and zeroes `released`. -/
theorem C3_payout_failure_rollback (s : VaultState) (sender id : Nat)
    (hu : (s.challenges id).user = sender) (hr : 0 < (s.challenges id).released) :
    claimUnlocked false sender id s = .error .transferFail ∧
    execTx s (Tx.claimTx false sender id) = s ∧
    ∃ s2, claimUnlocked true sender id s = .ok s2 ∧
      s2.outXfers = s.outXfers ++ [(sender, (s.challenges id).released)] ∧
      (s2.challenges id).released = 0 := by
  have heff : claimUnlockedEffects sender id s
      = .ok ((s.challenges id).released, zeroReleasedState id s) := by
    unfold claimUnlockedEffects
    rw [if_pos hu, if_pos hr]
  have hfail : claimUnlocked false sender id s = .error .transferFail := by
    unfold claimUnlocked
    rw [heff]
    rfl
  refine ⟨hfail, ?_, ?_⟩
  · exact execTx_error (by simp only [stepTx]; exact hfail)
  · refine ⟨claimPaidState sender id (s.challenges id).released (zeroReleasedState id s),
      ?_, ?_, ?_⟩
    · unfold claimUnlocked
      rw [heff]
      rfl
    · simp [claimPaidState, zeroReleasedState, setChallenge]
    · simp [claimPaidState, zeroReleasedState, setChallenge]

/-- C4.  Finalized is terminal: once a `finalize` on challenge `id` has
succeeded, in every later reachable state the `finalized` flag is still set,
every `attestCompletion` on `id` by the attester and every second `finalize`
on `id` (by any caller) fail with the AlreadyFinalized error (`FINALIZED`),
and neither kind of call changes the state at all; in particular `finalize`
can succeed at most once per challenge. -/
theorem C4_finalized_terminal (deployer initialVerifier : Nat) (txs : List Tx)
    (now : Nat) (xferOk : Bool) (sender id : Nat)
    (h : isOk (stepTx (reach deployer initialVerifier txs)
          (Tx.finalizeTx now xferOk sender id)) = true)
    (more : List Tx) :
    ((reachAfter deployer initialVerifier txs (Tx.finalizeTx now xferOk sender id)
        more).challenges id).finalized = true
    ∧ (∀ n sd di, sd = (reachAfter deployer initialVerifier txs
          (Tx.finalizeTx now xferOk sender id) more).verifier →
        attestCompletion n sd id di (reachAfter deployer initialVerifier txs
          (Tx.finalizeTx now xferOk sender id) more) = .error .alreadyFinalized)
    ∧ (∀ n ok2 sd, finalize n ok2 sd id (reachAfter deployer initialVerifier txs
          (Tx.finalizeTx now xferOk sender id) more) = .error .alreadyFinalized)
    ∧ (∀ n sd di, execTx (reachAfter deployer initialVerifier txs
          (Tx.finalizeTx now xferOk sender id) more) (Tx.attestTx n sd id di)
        = reachAfter deployer initialVerifier txs (Tx.finalizeTx now xferOk sender id) more)
    ∧ (∀ n ok2 sd, execTx (reachAfter deployer initialVerifier txs
          (Tx.finalizeTx now xferOk sender id) more) (Tx.finalizeTx n ok2 sd id)
        = reachAfter deployer initialVerifier txs (Tx.finalizeTx now xferOk sender id) more) := by
  have hs := reach_inv deployer initialVerifier txs
  have hstep := isOk_exists h
  simp only [stepTx] at hstep
  have hpostInv : StateInv (execTx (reach deployer initialVerifier txs)
      (Tx.finalizeTx now xferOk sender id)) := execTx_preserves _ _ hs
  have hpostFin : ((execTx (reach deployer initialVerifier txs)
      (Tx.finalizeTx now xferOk sender id)).challenges id).finalized = true :=
    finalize_ok_finalized hstep
  have hfin : ((reachAfter deployer initialVerifier txs
      (Tx.finalizeTx now xferOk sender id) more).challenges id).finalized = true :=
    finalized_mono_trace more _ hpostInv id hpostFin
  refine ⟨hfin, ?_, ?_, ?_, ?_⟩
  · intro n sd di hsd
    exact attest_on_finalized hfin n sd di hsd
  · intro n ok2 sd
    exact finalize_on_finalized hfin n ok2 sd
  · intro n sd di
    exact execTx_of_not_ok (by
      simp only [stepTx]
      exact attest_not_ok_of_finalized hfin n sd di)
  · intro n ok2 sd
    exact execTx_error (by
      simp only [stepTx]
      exact finalize_on_finalized hfin n ok2 sd)

/-- C5.  Day indices unlock at most once: after a successful
`attestCompletion` of `dayIndex` on challenge `id`, in every later reachable
state that day is still marked unlocked, a second attestation of the same
index by the attester fails with the AlreadyUnlocked error
(`ALREADY_UNLOCKED`) as long as the challenge is not finalized, and a second
attestation of that index by any caller never succeeds and never changes the
state. -/
theorem C5_day_attested_once (deployer initialVerifier : Nat) (txs : List Tx)
    (now sender id dayIndex : Nat)
    (h : isOk (stepTx (reach deployer initialVerifier txs)
          (Tx.attestTx now sender id dayIndex)) = true)
    (more : List Tx) :
    ((reachAfter deployer initialVerifier txs (Tx.attestTx now sender id dayIndex)
        more).challenges id).dayUnlocked dayIndex = true
    ∧ (∀ n sd, sd = (reachAfter deployer initialVerifier txs
          (Tx.attestTx now sender id dayIndex) more).verifier →
        ((reachAfter deployer initialVerifier txs (Tx.attestTx now sender id dayIndex)
            more).challenges id).finalized = false →
        attestCompletion n sd id dayIndex (reachAfter deployer initialVerifier txs
          (Tx.attestTx now sender id dayIndex) more) = .error .alreadyUnlocked)
    ∧ (∀ n sd, isOk (attestCompletion n sd id dayIndex
          (reachAfter deployer initialVerifier txs (Tx.attestTx now sender id dayIndex)
            more)) = false)
    ∧ (∀ n sd, execTx (reachAfter deployer initialVerifier txs
          (Tx.attestTx now sender id dayIndex) more) (Tx.attestTx n sd id dayIndex)
        = reachAfter deployer initialVerifier txs (Tx.attestTx now sender id dayIndex) more) := by
  have hs := reach_inv deployer initialVerifier txs
  have hstep := isOk_exists h
  simp only [stepTx] at hstep
  have hpostInv : StateInv (execTx (reach deployer initialVerifier txs)
      (Tx.attestTx now sender id dayIndex)) := execTx_preserves _ _ hs
  have hpostUnl : ((execTx (reach deployer initialVerifier txs)
      (Tx.attestTx now sender id dayIndex)).challenges id).dayUnlocked dayIndex = true :=
    attest_ok_unlocked hstep
  have hunl : ((reachAfter deployer initialVerifier txs
      (Tx.attestTx now sender id dayIndex) more).challenges id).dayUnlocked dayIndex = true :=
    unlocked_mono_trace more _ hpostInv id dayIndex hpostUnl
  have hlaterInv : StateInv (reachAfter deployer initialVerifier txs
      (Tx.attestTx now sender id dayIndex) more) :=
    execTrace_preserves more _ hpostInv
  refine ⟨hunl, ?_, ?_, ?_⟩
  · intro n sd hsd hnf
    exact attest_on_unlocked hlaterInv hunl hnf n sd hsd
  · intro n sd
    exact attest_not_ok_of_unlocked hunl n sd
  · intro n sd
    exact execTx_of_not_ok (by
      simp only [stepTx]
      exact attest_not_ok_of_unlocked hunl n sd)

/-- C6.  Time gating of attestation: on an existing, non-finalized challenge,
for an attester call on a not-yet-unlocked day index inside the window,
`attestCompletion` fails with DayNotStarted (`DAY_NOT_STARTED`) exactly when
`now < startTime + dayIndex * 1 day`, succeeds for every `now` at or past
that instant (in particular at exactly that instant), and the gate mentions
no other day, so days can be attested out of order. -/
theorem C6_time_gate (s : VaultState) (now sender id dayIndex : Nat)
    (huser : (s.challenges id).user ≠ 0)
    (hfin : (s.challenges id).finalized = false)
    (hsv : sender = s.verifier)
    (hday : dayIndex < (s.challenges id).durationDays)
    (hunl : (s.challenges id).dayUnlocked dayIndex = false) :
    (now < (s.challenges id).startTime + dayIndex * 86400 →
       attestCompletion now sender id dayIndex s = .error .dayNotStarted)
    ∧ ((s.challenges id).startTime + dayIndex * 86400 ≤ now →
       attestCompletion now sender id dayIndex s = .ok (attestedState id dayIndex s))
    ∧ attestCompletion ((s.challenges id).startTime + dayIndex * 86400) sender id dayIndex s
        = .ok (attestedState id dayIndex s) := by
  have hbase : ∀ n : Nat, ¬ n < (s.challenges id).startTime + dayIndex * 86400 →
      attestCompletion n sender id dayIndex s = .ok (attestedState id dayIndex s) := by
    intro n hn
    unfold attestCompletion
    rw [if_pos hsv, if_neg (by simp [hfin]), if_neg huser, if_pos hday,
        if_neg (by simp [hunl]), if_neg hn]
  refine ⟨?_, ?_, ?_⟩
  · intro hlt
    unfold attestCompletion
    rw [if_pos hsv, if_neg (by simp [hfin]), if_neg huser, if_pos hday,
        if_neg (by simp [hunl]), if_pos hlt]
  · intro hge
    exact hbase now (by omega)
  · exact hbase _ (by omega)

/-- C7.  `createChallenge` with `durationDays = 0` always fails (with
ZeroDuration, i.e. `DURATION_ZERO`, whenever the earlier beneficiary and
amount checks pass), and every failing `createChallenge` — validation failure
or transfer failure — leaves the state completely unchanged: no challenge
record, no pulled asset, no event. -/
theorem C7_create_validation (s : VaultState)
    (now sender beneficiary amount startTime durationDays : Nat) (pullOk : Bool) :
    (durationDays = 0 →
      ∃ e, createChallenge now pullOk sender beneficiary amount startTime durationDays s
            = .error e)
    ∧ (durationDays = 0 → beneficiary ≠ 0 → amount ≠ 0 →
        createChallenge now pullOk sender beneficiary amount startTime durationDays s
          = .error .durationZero)
    ∧ (∀ e, createChallenge now pullOk sender beneficiary amount startTime durationDays s
          = .error e →
        execTx s (Tx.createTx now pullOk sender beneficiary amount startTime durationDays)
          = s) := by
  refine ⟨?_, ?_, ?_⟩
  · intro hd
    unfold createChallenge
    by_cases hb : beneficiary = 0
    · rw [if_pos hb]; exact ⟨_, rfl⟩
    · rw [if_neg hb]
      by_cases ha : amount = 0
      · rw [if_pos ha]; exact ⟨_, rfl⟩
      · rw [if_neg ha, if_pos hd]; exact ⟨_, rfl⟩
  · intro hd hb ha
    unfold createChallenge
    rw [if_neg hb, if_neg ha, if_pos hd]
  · intro e he
    have hstep : stepTx s (Tx.createTx now pullOk sender beneficiary amount startTime
        durationDays) = .error e := by
      simp only [stepTx, he, Except.map]
    exact execTx_error hstep

/-- C8.  A successful creation stores `dailySlice = amount / durationDays`
(floor division), so `dailySlice * durationDays ≤ principal`, the difference
`principal - dailySlice * durationDays` is exactly the floor-division
remainder `amount % durationDays`, and that remainder is strictly below
`durationDays`. -/
theorem C8_daily_slice {now : Nat} {pullOk : Bool}
    {sender beneficiary amount startTime durationDays : Nat}
    {s : VaultState} {id : Nat} {s2 : VaultState}
    (h : createChallenge now pullOk sender beneficiary amount startTime durationDays s
          = .ok (id, s2)) :
    (s2.challenges id).dailySlice = amount / durationDays
    ∧ (s2.challenges id).principal = amount
    ∧ (s2.challenges id).durationDays = durationDays
    ∧ (s2.challenges id).dailySlice * (s2.challenges id).durationDays
        ≤ (s2.challenges id).principal
    ∧ (s2.challenges id).principal
        - (s2.challenges id).dailySlice * (s2.challenges id).durationDays
        = amount % durationDays
    ∧ amount % durationDays < durationDays := by
  obtain ⟨-, -, hd, -, -, rfl, rfl⟩ := createChallenge_ok h
  have hch : (createdState sender beneficiary amount startTime durationDays s).challenges
      (s.nextChallengeId + 1) = newChallenge sender beneficiary amount startTime durationDays := by
    simp [createdState, setChallenge]
  rw [hch]
  have hmad := Nat.mod_add_div amount durationDays
  rw [Nat.mul_comm durationDays (amount / durationDays)] at hmad
  refine ⟨rfl, rfl, rfl, ?_, ?_, Nat.mod_lt _ (by omega)⟩
  · show amount / durationDays * durationDays ≤ amount
    omega
  · show amount - amount / durationDays * durationDays = amount % durationDays
    omega

/-- C9.  `claimUnlocked` is not gated on finalization: on any state whose
challenge `id` is finalized but still holds `released > 0`, the owner's claim
with a succeeding payout still succeeds, pays out exactly the outstanding
`released` balance, and zeroes it. -/
theorem C9_claim_after_finalize (s : VaultState) (id : Nat)
    (hfin : (s.challenges id).finalized = true)
    (hrel : 0 < (s.challenges id).released) :
    ∃ s2, claimUnlocked true ((s.challenges id).user) id s = .ok s2 ∧
      s2.outXfers = s.outXfers ++ [((s.challenges id).user, (s.challenges id).released)] ∧
      (s2.challenges id).released = 0 ∧
      (s2.challenges id).finalized = true := by
  have heff : claimUnlockedEffects ((s.challenges id).user) id s
      = .ok ((s.challenges id).released, zeroReleasedState id s) := by
    unfold claimUnlockedEffects
    rw [if_pos rfl, if_pos hrel]
  refine ⟨claimPaidState ((s.challenges id).user) id (s.challenges id).released
      (zeroReleasedState id s), ?_, ?_, ?_, ?_⟩
  · unfold claimUnlocked
    rw [heff]
    rfl
  · simp [claimPaidState, zeroReleasedState, setChallenge]
  · simp [claimPaidState, zeroReleasedState, setChallenge]
  · simpa [claimPaidState, zeroReleasedState, setChallenge] using hfin

/-- C10.  Zero-slice challenges: in any reachable state, a challenge with
`principal < durationDays` has `dailySlice = 0` and `released = 0`; every
successful attestation leaves `released` unchanged (it adds the zero slice),
the owner's claim always fails with NothingToClaim (`NOTHING_TO_CLAIM`), and
a successful `finalize` sweeps the entire principal to the beneficiary
(`penalized` becomes the whole principal and, when it is positive, the
beneficiary transfer is for the whole principal), regardless of how many days
were attested. -/
theorem C10_zero_slice (deployer initialVerifier : Nat) (txs : List Tx) (id : Nat)
    (h : ((reach deployer initialVerifier txs).challenges id).principal
         < ((reach deployer initialVerifier txs).challenges id).durationDays) :
    ((reach deployer initialVerifier txs).challenges id).dailySlice = 0
    ∧ ((reach deployer initialVerifier txs).challenges id).released = 0
    ∧ (∀ n sd di s2, attestCompletion n sd id di (reach deployer initialVerifier txs)
          = .ok s2 →
        (s2.challenges id).released
          = ((reach deployer initialVerifier txs).challenges id).released)
    ∧ (∀ ok2 : Bool, claimUnlocked ok2
          (((reach deployer initialVerifier txs).challenges id).user) id
          (reach deployer initialVerifier txs) = .error .nothingToClaim)
    ∧ (∀ n ok2 sd s2, finalize n ok2 sd id (reach deployer initialVerifier txs)
          = .ok s2 →
        (s2.challenges id).penalized
            = ((reach deployer initialVerifier txs).challenges id).principal
          ∧ (0 < ((reach deployer initialVerifier txs).challenges id).principal →
             s2.outXfers = (reach deployer initialVerifier txs).outXfers
               ++ [(((reach deployer initialVerifier txs).challenges id).beneficiary,
                    ((reach deployer initialVerifier txs).challenges id).principal)])) := by
  have hs := reach_inv deployer initialVerifier txs
  have hinv := hs.perChallenge id
  have hslice : ((reach deployer initialVerifier txs).challenges id).dailySlice = 0 := by
    rw [hinv.sliceDef]
    exact Nat.div_eq_of_lt h
  have hrel : ((reach deployer initialVerifier txs).challenges id).released = 0 := by
    have hacc := hinv.accounting
    rw [hslice, Nat.mul_zero] at hacc
    omega
  have hsum : _sumUnlocked ((reach deployer initialVerifier txs).challenges id) = 0 := by
    rw [sumUnlocked_eq, hslice, Nat.mul_zero]
  have hfr : finalizeRemainder ((reach deployer initialVerifier txs).challenges id)
      = ((reach deployer initialVerifier txs).challenges id).principal := by
    rw [finalizeRemainder, hsum, Nat.sub_zero]
  refine ⟨hslice, hrel, ?_, ?_, ?_⟩
  · intro n sd di s2 hatt
    obtain ⟨-, -, -, -, -, -, rfl⟩ := attestCompletion_ok hatt
    have : ((attestedState id di (reach deployer initialVerifier txs)).challenges id).released
        = ((reach deployer initialVerifier txs).challenges id).released
          + ((reach deployer initialVerifier txs).challenges id).dailySlice := by
      simp [attestedState, setChallenge, attestUpdate]
    rw [this, hslice, Nat.add_zero]
  · intro ok2
    unfold claimUnlocked claimUnlockedEffects
    rw [if_pos rfl, if_neg (by rw [hrel]; omega)]
  · intro n ok2 sd s2 hfinz
    obtain ⟨hnf, -, -, hcase⟩ := finalize_ok hfinz
    have hpen0 := hinv.penNotFin hnf
    have hchf : (finalizedState id (reach deployer initialVerifier txs)).challenges id
        = { (reach deployer initialVerifier txs).challenges id with
            penalized := ((reach deployer initialVerifier txs).challenges id).penalized
              + finalizeRemainder ((reach deployer initialVerifier txs).challenges id),
            finalized := true } := by
      simp [finalizedState, setChallenge]
    have hpenEq : ((finalizedState id (reach deployer initialVerifier txs)).challenges id).penalized
        = ((reach deployer initialVerifier txs).challenges id).principal := by
      rw [hchf]
      show ((reach deployer initialVerifier txs).challenges id).penalized
          + finalizeRemainder ((reach deployer initialVerifier txs).challenges id)
          = ((reach deployer initialVerifier txs).challenges id).principal
      rw [hpen0, hfr, Nat.zero_add]
    rcases hcase with ⟨hpos, -, rfl⟩ | ⟨hzero, rfl⟩
    · constructor
      · simpa [finalizedState, setChallenge] using hpenEq
      · intro _
        rw [hfr] at hpos ⊢
        simp [finalizedState, setChallenge]
    · constructor
      · exact hpenEq
      · intro hpos
        rw [hfr] at hzero
        omega

/-! ### Concrete witness scenarios

Addresses: deployer 1, verifier 2, challenge owner 3, beneficiary 4.
The main trace replays the worked scenario of the specification:
principal 100 over 7 days, slice 14, days 0-3 attested and claimed,
day 4 attested, then finalization sweeps 100 - 5 * 14 = 30. -/

def demoTxs : List Tx :=
  [Tx.createTx 100 true 3 4 100 100 7,
   Tx.attestTx 100 2 1 0,
   Tx.attestTx 86500 2 1 1,
   Tx.attestTx 172900 2 1 2,
   Tx.attestTx 259300 2 1 3,
   Tx.claimTx true 3 1,
   Tx.attestTx 345700 2 1 4]

/-- A single creation: principal 100 over 7 days starting at time 100. -/
def demo1Txs : List Tx := [Tx.createTx 100 true 3 4 100 100 7]

/-- Creation plus one attested day (released = 14). -/
def demo2Txs : List Tx :=
  [Tx.createTx 100 true 3 4 100 100 7, Tx.attestTx 100 2 1 0]

/-- Creation, one attested day, then finalization without claiming:
a finalized challenge that still has released = 14. -/
def demo9Txs : List Tx :=
  [Tx.createTx 100 true 3 4 100 100 7,
   Tx.attestTx 100 2 1 0,
   Tx.finalizeTx 604900 true 9 1]

/-- A zero-slice challenge: principal 5 over 7 days, one day attested. -/
def demo10Txs : List Tx :=
  [Tx.createTx 100 true 3 4 5 100 7, Tx.attestTx 100 2 1 0]

theorem C1_conservation_witness :
    isOk (stepTx (reach 1 2 demoTxs) (Tx.finalizeTx 604900 true 9 1)) = true
    ∧ claimedTotal (reach 1 2 demoTxs).log 1
        + ((reach 1 2 demoTxs).challenges 1).released
        + ((reach 1 2 demoTxs).challenges 1).penalized
        ≤ ((reach 1 2 demoTxs).challenges 1).principal
    ∧ ((reachAfter 1 2 demoTxs (Tx.finalizeTx 604900 true 9 1) []).challenges 1).penalized
        + _sumUnlocked ((reachAfter 1 2 demoTxs (Tx.finalizeTx 604900 true 9 1) []).challenges 1)
        = ((reachAfter 1 2 demoTxs (Tx.finalizeTx 604900 true 9 1) []).challenges 1).principal :=
  ⟨by decide, (C1_conservation 1 2 1 demoTxs 604900 true 9 1).1,
   (C1_conservation 1 2 1 demoTxs 604900 true 9 1).2 (by decide)⟩

theorem C2_witness :
    3 = ((reach 1 2 demo2Txs).challenges 1).user
    ∧ 0 < ((reach 1 2 demo2Txs).challenges 1).released
    ∧ ((execTx (reach 1 2 demo2Txs) (Tx.claimTx true 3 1)).challenges 1).released = 0
    ∧ (execTx (reach 1 2 demo2Txs) (Tx.claimTx true 3 1)).outXfers
        = (reach 1 2 demo2Txs).outXfers
          ++ [(3, ((reach 1 2 demo2Txs).challenges 1).released)] := by
  have h : claimUnlocked true 3 1 (reach 1 2 demo2Txs)
      = .ok (execTx (reach 1 2 demo2Txs) (Tx.claimTx true 3 1)) :=
    @isOk_exists (reach 1 2 demo2Txs) (Tx.claimTx true 3 1) (by decide)
  obtain ⟨h1, h2, h3, h4, -⟩ := C2_claim_zeroes_then_pays h
  exact ⟨h1, h2, h3, h4⟩

theorem C3_witness :
    claimUnlocked false 3 1 (reach 1 2 demo2Txs) = .error .transferFail
    ∧ execTx (reach 1 2 demo2Txs) (Tx.claimTx false 3 1) = reach 1 2 demo2Txs := by
  have hc3 := C3_payout_failure_rollback (reach 1 2 demo2Txs) 3 1 (by decide) (by decide)
  exact ⟨hc3.1, hc3.2.1⟩

theorem C4_witness :
    isOk (stepTx (reach 1 2 demoTxs) (Tx.finalizeTx 604900 true 9 1)) = true
    ∧ ((reachAfter 1 2 demoTxs (Tx.finalizeTx 604900 true 9 1) []).challenges 1).finalized = true
    ∧ attestCompletion 700000 2 1 5
        (reachAfter 1 2 demoTxs (Tx.finalizeTx 604900 true 9 1) [])
        = .error .alreadyFinalized
    ∧ finalize 700000 true 9 1 (reachAfter 1 2 demoTxs (Tx.finalizeTx 604900 true 9 1) [])
        = .error .alreadyFinalized := by
  have hc4 := C4_finalized_terminal 1 2 demoTxs 604900 true 9 1 (by decide) []
  exact ⟨by decide, hc4.1, hc4.2.1 700000 2 5 (by decide), hc4.2.2.1 700000 true 9⟩

theorem C5_witness :
    isOk (stepTx (reach 1 2 demo1Txs) (Tx.attestTx 100 2 1 0)) = true
    ∧ ((reachAfter 1 2 demo1Txs (Tx.attestTx 100 2 1 0) []).challenges 1).dayUnlocked 0 = true
    ∧ attestCompletion 200000 2 1 0 (reachAfter 1 2 demo1Txs (Tx.attestTx 100 2 1 0) [])
        = .error .alreadyUnlocked
    ∧ isOk (attestCompletion 200000 2 1 0
        (reachAfter 1 2 demo1Txs (Tx.attestTx 100 2 1 0) [])) = false := by
  have hc5 := C5_day_attested_once 1 2 demo1Txs 100 2 1 0 (by decide) []
  exact ⟨by decide, hc5.1, hc5.2.1 200000 2 (by decide) (by decide), hc5.2.2.1 200000 2⟩

theorem C6_witness :
    attestCompletion 259299 2 1 3 (reach 1 2 demo1Txs) = .error .dayNotStarted
    ∧ attestCompletion (((reach 1 2 demo1Txs).challenges 1).startTime + 3 * 86400) 2 1 3
        (reach 1 2 demo1Txs) = .ok (attestedState 1 3 (reach 1 2 demo1Txs)) := by
  have hc6 := C6_time_gate (reach 1 2 demo1Txs) 259299 2 1 3
    (by decide) (by decide) (by decide) (by decide) (by decide)
  exact ⟨hc6.1 (by decide), hc6.2.2⟩

theorem C7_witness :
    createChallenge 100 true 3 4 50 100 0 (initState 1 2) = .error .durationZero
    ∧ execTx (initState 1 2) (Tx.createTx 100 true 3 4 50 100 0) = initState 1 2 := by
  have hc7 := C7_create_validation (initState 1 2) 100 3 4 50 100 0 true
  have herr := hc7.2.1 rfl (by decide) (by decide)
  exact ⟨herr, hc7.2.2 Err.durationZero herr⟩

theorem C8_witness :
    ((createdState 3 4 100 100 7 (initState 1 2)).challenges 1).dailySlice = 100 / 7
    ∧ ((createdState 3 4 100 100 7 (initState 1 2)).challenges 1).dailySlice
        * ((createdState 3 4 100 100 7 (initState 1 2)).challenges 1).durationDays
        ≤ ((createdState 3 4 100 100 7 (initState 1 2)).challenges 1).principal
    ∧ ((createdState 3 4 100 100 7 (initState 1 2)).challenges 1).principal
        - ((createdState 3 4 100 100 7 (initState 1 2)).challenges 1).dailySlice
          * ((createdState 3 4 100 100 7 (initState 1 2)).challenges 1).durationDays
        = 100 % 7
    ∧ 100 % 7 < 7 := by
  have h : createChallenge 100 true 3 4 100 100 7 (initState 1 2)
      = .ok (1, createdState 3 4 100 100 7 (initState 1 2)) := rfl
  have hc8 := C8_daily_slice h
  exact ⟨hc8.1, hc8.2.2.2.1, hc8.2.2.2.2.1, hc8.2.2.2.2.2⟩

theorem C9_witness :
    ((reach 1 2 demo9Txs).challenges 1).finalized = true
    ∧ 0 < ((reach 1 2 demo9Txs).challenges 1).released
    ∧ ∃ s2, claimUnlocked true (((reach 1 2 demo9Txs).challenges 1).user) 1
          (reach 1 2 demo9Txs) = .ok s2 ∧
        s2.outXfers = (reach 1 2 demo9Txs).outXfers
          ++ [((((reach 1 2 demo9Txs).challenges 1).user),
               ((reach 1 2 demo9Txs).challenges 1).released)] ∧
        (s2.challenges 1).released = 0 ∧
        (s2.challenges 1).finalized = true := by
  exact ⟨by decide, by decide, C9_claim_after_finalize (reach 1 2 demo9Txs) 1
    (by decide) (by decide)⟩

theorem C10_witness :
    ((reach 1 2 demo10Txs).challenges 1).principal
      < ((reach 1 2 demo10Txs).challenges 1).durationDays
    ∧ ((reach 1 2 demo10Txs).challenges 1).dailySlice = 0
    ∧ ((reach 1 2 demo10Txs).challenges 1).released = 0
    ∧ claimUnlocked true (((reach 1 2 demo10Txs).challenges 1).user) 1
        (reach 1 2 demo10Txs) = .error .nothingToClaim
    ∧ ((execTx (reach 1 2 demo10Txs) (Tx.finalizeTx 604900 true 9 1)).challenges 1).penalized
        = ((reach 1 2 demo10Txs).challenges 1).principal := by
  have hc10 := C10_zero_slice 1 2 demo10Txs 1 (by decide)
  have hfinz : finalize 604900 true 9 1 (reach 1 2 demo10Txs)
      = .ok (execTx (reach 1 2 demo10Txs) (Tx.finalizeTx 604900 true 9 1)) :=
    @isOk_exists (reach 1 2 demo10Txs) (Tx.finalizeTx 604900 true 9 1) (by decide)
  exact ⟨by decide, hc10.1, hc10.2.1,
    hc10.2.2.2.1 true, (hc10.2.2.2.2 604900 true 9 _ hfinz).1⟩
